import Mathlib

/-!
Verification of the message-board backend (`src/src/index.ts`).

The core is a `Message` entity with `create`/`update` rules, a durable
keyed store (`StableBTreeMap`) with `insert`/`get`/`remove`/`values`,
a substring `search` over the stored values, and a clock utility
`getCurrentDate` that converts the host's nanosecond clock reading
into a millisecond timestamp via JavaScript number arithmetic.

The embedding below is shallow: timestamps are integers (milliseconds),
the store is an association list, JavaScript string falsiness is modelled
on `Option String`, and the JavaScript `Number`/`Math.floor` pipeline of
`getCurrentDate` is modelled exactly with rational arithmetic and
IEEE-754 round-to-nearest-even.
-/

namespace MessageBoard

/-- The `Message` record (class `Message` in the source).
`attachmentURL` and `updatedAt` are nullable (`Option`); timestamps are
millisecond values as stored in a JavaScript `Date`. -/
structure Message where
  id : String
  title : String
  body : String
  attachmentURL : Option String
  createdAt : Int
  updatedAt : Option Int
deriving DecidableEq, Repr

/-- The payload of a create request: `Partial<Message>`.  Each field may be
absent.  `attachmentURL` of the record is `string | null`, so a present
value is itself an `Option String`.  `Message.create` only reads `title`,
`body` and `attachmentURL`; the other fields are carried to show they are
ignored. -/
structure CreateInput where
  id : Option String
  title : Option String
  body : Option String
  attachmentURL : Option (Option String)
  createdAt : Option Int
  updatedAt : Option (Option Int)
deriving DecidableEq, Repr

/-- The payload of an update request, also `Partial<Message>`. -/
structure UpdateInput where
  id : Option String
  title : Option String
  body : Option String
  attachmentURL : Option (Option String)
  createdAt : Option Int
  updatedAt : Option (Option Int)
deriving DecidableEq, Repr

/-- JavaScript falsiness of an optional string value: `undefined`, `null`
and the empty string are falsy (`!data.title` in the source). -/
def strFalsy : Option String → Bool
  | none => true
  | some s => s = ""

/-- JavaScript falsiness of a `string | null` value
(`data.attachmentURL || null` in the source). -/
def strNullFalsy : Option (Option String) → Bool
  | none => true
  | some none => true
  | some (some s) => s = ""

/-- `Message.create` (source lines 35-46).  `freshId` stands for the
`uuidv4()` call and `now` for `getCurrentDate()`; both are injected so the
function is pure.  Throwing is modelled with `Except`. -/
def Message.create (freshId : String) (now : Int) (data : CreateInput) :
    Except String Message :=
  if strFalsy data.title || strFalsy data.body then
    .error "Both 'title' and 'body' are required."
  else
    .ok { id := freshId
          title := data.title.getD ""
          body := data.body.getD ""
          attachmentURL :=
            if strNullFalsy data.attachmentURL then none
            else data.attachmentURL.getD none
          createdAt := now
          updatedAt := none }

/-- `Message.update` (source lines 48-54).  Each field that is present in
the payload (`!== undefined`, which includes an explicit `null` for
`attachmentURL`) overwrites the current field; `updatedAt` is always set
to the injected current time.  The source mutates `this` and returns it;
here the updated record is returned. -/
def Message.update (m : Message) (data : UpdateInput) (now : Int) : Message :=
  { m with
    title := match data.title with
             | some t => t
             | none => m.title
    body := match data.body with
            | some b => b
            | none => m.body
    attachmentURL := match data.attachmentURL with
                     | some a => a
                     | none => m.attachmentURL
    updatedAt := some now }

/-! ### The store

`messagesStorage = StableBTreeMap<string, Message>(0)` is modelled as an
association list.  `insert` overwrites the entry at the key, `get` looks
the key up, `remove` deletes the entry and returns what was stored,
`values` lists the stored records. -/

/-- The state of `messagesStorage`. -/
abbrev MessagesStorage := List (String × Message)

/-- `messagesStorage.get(id)`. -/
def storageGet (s : MessagesStorage) (k : String) : Option Message :=
  (s.find? (fun p => p.1 = k)).map (·.2)

/-- `messagesStorage.insert(id, message)`: inserts or overwrites the
record at the key.  It is a total function: it always succeeds. -/
def storageInsert (s : MessagesStorage) (k : String) (v : Message) :
    MessagesStorage :=
  (k, v) :: s.filter (fun p => p.1 ≠ k)

/-- `messagesStorage.remove(id)`: returns the removed record (or `none`)
together with the remaining store. -/
def storageRemove (s : MessagesStorage) (k : String) :
    Option Message × MessagesStorage :=
  (storageGet s k, s.filter (fun p => p.1 ≠ k))

/-- `messagesStorage.values()`. -/
def storageValues (s : MessagesStorage) : List Message :=
  s.map (·.2)

/-! ### Search -/

/-- `toLowerCase` (ASCII, as `Char.toLower`). -/
def jsToLower (s : String) : String :=
  ⟨s.data.map Char.toLower⟩

/-- `a.includes(b)`: substring containment. -/
def jsIncludes (s pat : String) : Bool :=
  decide (pat.data <:+: s.data)

/-- The filter predicate of the search handler (source lines 126-129),
applied to an already-lowercased query. -/
def matchesLoweredQuery (q : String) (m : Message) : Bool :=
  jsIncludes (jsToLower m.title) q || jsIncludes (jsToLower m.body) q

/-- The `/messages/search` handler core (source lines 119-132).  The query
parameter may be absent (`none`).  The source lowercases the query, rejects
a falsy (absent or empty) query, and otherwise filters the stored values by
case-insensitive substring containment in `title` or `body`. -/
def searchMessages (s : MessagesStorage) (query : Option String) :
    Except String (List Message) :=
  match query with
  | none => .error "Query parameter is required."
  | some qs =>
    if jsToLower qs = "" then .error "Query parameter is required."
    else .ok ((storageValues s).filter (matchesLoweredQuery (jsToLower qs)))

/-- Case-insensitive substring containment of `q` in `a`, the
specification-side reading of "contains `q` case-insensitively". -/
def containsCaseInsensitive (a q : String) : Bool :=
  jsIncludes (jsToLower a) (jsToLower q)

/-! ### Record lifecycle

A stored record starts as the result of `Message.create` and evolves by a
sequence of `Message.update` calls (the `PUT` handler re-inserts the
updated record at the same key).  `applyUpdates` folds such a sequence of
(payload, clock reading) pairs over a record. -/

/-- Apply a sequence of updates, each with the clock reading observed by
its `getCurrentDate()` call. -/
def applyUpdates (m : Message) (us : List (UpdateInput × Int)) : Message :=
  us.foldl (fun acc u => acc.update u.1 u.2) m

/-! ### The clock: `getCurrentDate` (source lines 135-138)

`ic.time()` returns the nanosecond clock reading as a bigint `t`.
`Number(t)` converts it to an IEEE-754 binary64 value (round to nearest,
ties to even); `timestamp / 1_000_000` is binary64 division (the exact
quotient is rounded again); `Math.floor` is exact on binary64 values, and
the resulting integer is the millisecond value held by the `Date`.

The conversion and the division are modelled exactly over `ℚ`:
`roundDouble q` is the binary64 value nearest to a nonnegative rational
`q`, as a rational.  Only kernel-computable primitives are used so that
concrete clock readings evaluate by `decide`. -/

/-- Floor of a rational, computably (`q.den` is positive). -/
def ratFloor (q : ℚ) : ℤ := Int.fdiv q.num (q.den : ℤ)

/-- Fuel-based binary logarithm (equal to `Nat.log2`; the fuel makes it
structurally recursive, so it reduces in the kernel). -/
def log2fuel : ℕ → ℕ → ℕ
  | 0, _ => 0
  | fuel+1, n => if 2 ≤ n then log2fuel fuel (n / 2) + 1 else 0

/-- Binary logarithm of a natural number. -/
def natLog2 (n : ℕ) : ℕ := log2fuel n n

/-- `2 ^ e` for an integer exponent `e`, as a rational. -/
def pow2 (e : ℤ) : ℚ :=
  if 0 ≤ e then ((2 ^ e.toNat : ℕ) : ℚ) else (((2 ^ (-e).toNat : ℕ) : ℚ))⁻¹

/-- Round a rational to the nearest integer, ties to even. -/
def rne (q : ℚ) : ℤ :=
  let f := ratFloor q
  let r := q - f
  if r < 1/2 then f
  else if 1/2 < r then f + 1
  else if f % 2 = 0 then f else f + 1

/-- The binade of a positive rational: the largest `e` with `2 ^ e ≤ q`. -/
def qexp (q : ℚ) : ℤ :=
  if q < pow2 ((natLog2 q.num.natAbs : ℤ) - (natLog2 q.den : ℤ))
  then (natLog2 q.num.natAbs : ℤ) - (natLog2 q.den : ℤ) - 1
  else (natLog2 q.num.natAbs : ℤ) - (natLog2 q.den : ℤ)

/-- Round a nonnegative rational to the nearest IEEE-754 binary64 value
(round to nearest, ties to even), expressed exactly as a rational.  This
covers the normal, non-overflowing range, which contains every value the
clock pipeline produces. -/
def roundDouble (q : ℚ) : ℚ :=
  if q = 0 then 0
  else (rne (q * pow2 (52 - qexp q)) : ℚ) * pow2 (qexp q - 52)

/-- `getCurrentDate` (source lines 135-138) as a function of the
nanosecond clock reading `t = ic.time()`: the millisecond value of the
constructed `Date`. -/
def getCurrentDate (t : ℕ) : ℤ :=
  ratFloor (roundDouble (roundDouble (t : ℚ) / 1000000))

/-! ### Sample records used by the witnesses -/

/-- A sample message. -/
def msgA : Message :=
  { id := "id-a", title := "Hello", body := "World",
    attachmentURL := none, createdAt := 5, updatedAt := none }

/-- Another sample message. -/
def msgB : Message :=
  { id := "id-b", title := "cat sat", body := "on the mat",
    attachmentURL := some "http://x", createdAt := 6, updatedAt := some 7 }

/-- An update payload that only sets `title`. -/
def updTitleX : UpdateInput :=
  { id := none, title := some "X", body := none, attachmentURL := none,
    createdAt := none, updatedAt := none }

/-! ## Store lemmas -/

theorem find?_filter_ne_key (s : MessagesStorage) (k k' : String) (h : k' ≠ k) :
    (s.filter (fun p => p.1 ≠ k)).find? (fun p => p.1 = k') =
      s.find? (fun p => p.1 = k') := by
  induction s with
  | nil => rfl
  | cons p t ih =>
    rw [List.filter_cons]
    by_cases hpk : p.1 = k
    · rw [if_neg (by simp [hpk]), ih,
          List.find?_cons_of_neg t (by simp [hpk]; exact fun hh => h hh.symm)]
    · rw [if_pos (by simp [hpk])]
      by_cases hpk' : p.1 = k'
      · rw [List.find?_cons_of_pos _ (by simp [hpk']),
            List.find?_cons_of_pos _ (by simp [hpk'])]
      · rw [List.find?_cons_of_neg _ (by simp [hpk']),
            List.find?_cons_of_neg _ (by simp [hpk']), ih]

/-! ## Claims -/

/-- C1: `create(input)` fails with a `ValidationError` exactly when
`input.title` or `input.body` is missing or empty; on success it returns a
new `Message` with the freshly generated id, the supplied `title` and
`body`, `createdAt` equal to the current clock value, and `updatedAt`
absent. -/
theorem create_spec (freshId : String) (now : Int) (data : CreateInput) :
    ((∃ e, Message.create freshId now data = .error e) ↔
      data.title = none ∨ data.title = some "" ∨
      data.body = none ∨ data.body = some "") ∧
    ∀ m, Message.create freshId now data = .ok m →
      m.id = freshId ∧ some m.title = data.title ∧ some m.body = data.body ∧
      m.createdAt = now ∧ m.updatedAt = none := by
  obtain ⟨i, ti, bo, au, ca, ua⟩ := data
  cases ti with
  | none => simp [Message.create, strFalsy]
  | some t =>
    cases bo with
    | none => simp [Message.create, strFalsy]
    | some b =>
      by_cases ht : t = ""
      · subst ht
        simp [Message.create, strFalsy]
      · by_cases hb : b = ""
        · subst hb
          simp [Message.create, strFalsy, ht]
        · simp only [Message.create, strFalsy]
          rw [if_neg (by simp [ht, hb])]
          constructor
          · simp [ht, hb]
          · intro m hm
            rw [Except.ok.injEq] at hm
            subst hm
            simp

/-- Witness for C1 at a concrete valid input. -/
theorem create_spec_witness :
    msgA.id = "id-a" ∧ some msgA.title = some "Hello" ∧
    some msgA.body = some "World" ∧ msgA.createdAt = 5 ∧ msgA.updatedAt = none :=
  (create_spec "id-a" 5
    ⟨none, some "Hello", some "World", none, none, none⟩).2 msgA (by with_unfolding_all rfl)

/-- C2: `update` overwrites exactly the fields present in the payload
(including an explicit null for `attachmentURL`), leaves absent fields —
and always `id` and `createdAt` — unchanged, and always sets `updatedAt`
to the current time. -/
theorem update_spec (m : Message) (data : UpdateInput) (now : Int) :
    ((m.update data now).id = m.id ∧
     (m.update data now).createdAt = m.createdAt ∧
     (m.update data now).updatedAt = some now) ∧
    (∀ t, data.title = some t → (m.update data now).title = t) ∧
    (data.title = none → (m.update data now).title = m.title) ∧
    (∀ b, data.body = some b → (m.update data now).body = b) ∧
    (data.body = none → (m.update data now).body = m.body) ∧
    (∀ a, data.attachmentURL = some a → (m.update data now).attachmentURL = a) ∧
    (data.attachmentURL = none →
      (m.update data now).attachmentURL = m.attachmentURL) := by
  obtain ⟨i, ti, bo, au, ca, ua⟩ := data
  cases ti <;> cases bo <;> cases au <;> simp [Message.update]

/-- Witness for C2: updating only `title` leaves `body` and
`attachmentURL` unchanged and stamps `updatedAt`. -/
theorem update_spec_witness :
    (msgB.update updTitleX 9).title = "X" ∧
    (msgB.update updTitleX 9).body = msgB.body ∧
    (msgB.update updTitleX 9).attachmentURL = msgB.attachmentURL ∧
    (msgB.update updTitleX 9).updatedAt = some 9 :=
  ⟨(update_spec msgB updTitleX 9).2.1 "X" rfl,
   (update_spec msgB updTitleX 9).2.2.2.2.1 rfl,
   (update_spec msgB updTitleX 9).2.2.2.2.2.2 rfl,
   (update_spec msgB updTitleX 9).1.2.2⟩

/-- C3: `get` after `insert` at the same key returns the inserted record;
inserting at an existing key overwrites it (last write wins); `insert` is
a total function (it always succeeds) and other keys are untouched. -/
theorem insert_get_spec (s : MessagesStorage) (k : String) (m : Message) :
    storageGet (storageInsert s k m) k = some m ∧
    (∀ m₀, storageGet (storageInsert (storageInsert s k m₀) k m) k = some m) ∧
    ∀ k', k' ≠ k → storageGet (storageInsert s k m) k' = storageGet s k' := by
  refine ⟨?_, fun m₀ => ?_, fun k' hk => ?_⟩
  · simp [storageGet, storageInsert, List.find?_cons]
  · simp [storageGet, storageInsert, List.find?_cons]
  · have h1 : ¬(k = k') := fun hh => hk hh.symm
    simp only [storageGet, storageInsert]
    rw [List.find?_cons_of_neg _ (by simp [h1]), find?_filter_ne_key s k k' hk]

/-- Witness for C3: overwrite at a key, and frame at another key. -/
theorem insert_get_spec_witness :
    storageGet (storageInsert (storageInsert [] "id-a" msgA) "id-a" msgB) "id-a"
      = some msgB ∧
    storageGet (storageInsert [] "id-a" msgA) "id-b"
      = storageGet ([] : MessagesStorage) "id-b" :=
  ⟨(insert_get_spec [] "id-a" msgB).2.1 msgA,
   (insert_get_spec [] "id-a" msgA).2.2 "id-b" (by decide)⟩

/-- C4: `remove` followed by `get` at the same key returns absent;
`remove` on a non-existent key returns absent (a normal result, not an
error — `remove` is total) and leaves every other stored record
unchanged. -/
theorem remove_spec (s : MessagesStorage) (k : String) :
    storageGet (storageRemove s k).2 k = none ∧
    (storageGet s k = none →
      (storageRemove s k).1 = none ∧ (storageRemove s k).2 = s) ∧
    ∀ k', k' ≠ k → storageGet (storageRemove s k).2 k' = storageGet s k' := by
  refine ⟨?_, fun h => ⟨by simp only [storageRemove]; exact h, ?_⟩, fun k' hk => ?_⟩
  · simp only [storageRemove, storageGet]
    rw [List.find?_eq_none.mpr]
    · rfl
    · intro x hx
      rw [List.mem_filter] at hx
      simpa using hx.2
  · simp only [storageRemove]
    apply List.filter_eq_self.mpr
    intro a ha
    cases hf : s.find? (fun p => p.1 = k) with
    | none =>
      have := List.find?_eq_none.mp hf a ha
      simpa using this
    | some p =>
      simp only [storageGet, hf] at h
      exact absurd h (by simp)
  · simp only [storageRemove, storageGet]
    rw [find?_filter_ne_key s k k' hk]

/-- Witness for C4 at a store holding one record and an absent key. -/
theorem remove_spec_witness :
    storageGet (storageRemove [("id-a", msgA)] "id-x").2 "id-x" = none ∧
    (storageRemove [("id-a", msgA)] "id-x").1 = none ∧
    (storageRemove [("id-a", msgA)] "id-x").2 = [("id-a", msgA)] ∧
    storageGet (storageRemove [("id-a", msgA)] "id-x").2 "id-a"
      = storageGet [("id-a", msgA)] "id-a" :=
  ⟨(remove_spec [("id-a", msgA)] "id-x").1,
   ((remove_spec [("id-a", msgA)] "id-x").2.1 (by decide)).1,
   ((remove_spec [("id-a", msgA)] "id-x").2.1 (by decide)).2,
   (remove_spec [("id-a", msgA)] "id-x").2.2 "id-a" (by decide)⟩

/-- C5: for a non-empty query, `search` returns exactly the subset of the
stored values whose `title` or `body` contains the query
case-insensitively (so the empty list when nothing matches, never an
error); a missing or empty query is rejected with a `ValidationError`. -/
theorem search_spec (s : MessagesStorage) (q : String) (hq : q ≠ "") :
    searchMessages s (some q) =
      .ok ((storageValues s).filter
        (fun m => containsCaseInsensitive m.title q ||
                  containsCaseInsensitive m.body q)) ∧
    searchMessages s none = .error "Query parameter is required." ∧
    searchMessages s (some "") = .error "Query parameter is required." := by
  refine ⟨?_, rfl, by simp [searchMessages, jsToLower]⟩
  have hql : jsToLower q ≠ "" := by
    intro hcon
    apply hq
    have hdata : q.data.map Char.toLower = [] := congrArg String.data hcon
    have : q.data = [] := List.map_eq_nil_iff.mp hdata
    cases q
    simp_all
  simp only [searchMessages]
  rw [if_neg hql]
  rfl

/-- Witness for C5: "cat sat" matches the query "at", "Hello"/"World"
does not. -/
theorem search_spec_witness :
    searchMessages [("id-b", msgB), ("id-a", msgA)] (some "at") =
      .ok ((storageValues [("id-b", msgB), ("id-a", msgA)]).filter
        (fun m => containsCaseInsensitive m.title "at" ||
                  containsCaseInsensitive m.body "at")) ∧
    (storageValues [("id-b", msgB), ("id-a", msgA)]).filter
        (fun m => containsCaseInsensitive m.title "at" ||
                  containsCaseInsensitive m.body "at") = [msgB] :=
  ⟨(search_spec [("id-b", msgB), ("id-a", msgA)] "at" (by decide)).1,
   by with_unfolding_all decide⟩

/-- `applyUpdates` never changes `createdAt`. -/
theorem applyUpdates_createdAt (m : Message) (us : List (UpdateInput × Int)) :
    (applyUpdates m us).createdAt = m.createdAt := by
  induction us generalizing m with
  | nil => rfl
  | cons u rest ih =>
    have : applyUpdates m (u :: rest) = applyUpdates (m.update u.1 u.2) rest := rfl
    rw [this, ih]
    rfl

/-- The `updatedAt` of an evolved record is one of the update times, or
was already present before the updates. -/
theorem applyUpdates_updatedAt_mem (m : Message) (us : List (UpdateInput × Int))
    (u : Int) (h : (applyUpdates m us).updatedAt = some u) :
    u ∈ us.map (fun p => p.2) ∨ m.updatedAt = some u := by
  induction us generalizing m with
  | nil => exact .inr h
  | cons p rest ih =>
    rcases ih (m.update p.1 p.2) h with h1 | h2
    · obtain ⟨q, hq1, hq2⟩ := List.mem_map.mp h1
      exact .inl (List.mem_map.mpr ⟨q, List.mem_cons_of_mem p hq1, hq2⟩)
    · have hpu : p.2 = u := by simpa [Message.update] using h2
      exact .inl (List.mem_map.mpr ⟨p, List.mem_cons_self p rest, hpu⟩)

/-- C6: for a record obtained by `create` and then any sequence of
updates whose clock readings are at least the creation reading (the
injected clock is monotone), `createdAt ≤ updatedAt` whenever `updatedAt`
is present. -/
theorem createdAt_le_updatedAt (freshId : String) (t0 : Int) (data : CreateInput)
    (m : Message) (hm : Message.create freshId t0 data = .ok m)
    (us : List (UpdateInput × Int)) (hmono : ∀ p ∈ us, t0 ≤ p.2) :
    ∀ u, (applyUpdates m us).updatedAt = some u →
      (applyUpdates m us).createdAt ≤ u := by
  have hshape := hm
  unfold Message.create at hshape
  split at hshape
  · exact absurd hshape (by simp)
  · rw [Except.ok.injEq] at hshape
    subst hshape
    intro u hu
    rw [applyUpdates_createdAt]
    rcases applyUpdates_updatedAt_mem _ us u hu with h1 | h2
    · obtain ⟨p, hp, hp2⟩ := List.mem_map.mp h1
      exact hp2 ▸ hmono p hp
    · exact absurd h2 (by simp)

/-- Witness for C6: create at time 5, update at time 7. -/
theorem createdAt_le_updatedAt_witness :
    (applyUpdates msgA [(updTitleX, 7)]).createdAt ≤ 7 :=
  createdAt_le_updatedAt "id-a" 5
    ⟨none, some "Hello", some "World", none, none, none⟩ msgA
    (by with_unfolding_all rfl)
    [(updTitleX, 7)] (by decide) 7 (by with_unfolding_all rfl)

/-- C7: `update` imposes no emptiness re-validation: supplying an empty
`title` (or `body`) succeeds and stores the empty string, while `create`
rejects an empty `title`. -/
theorem update_no_revalidation (m : Message) (now : Int) :
    (m.update { id := none, title := some "", body := none,
                attachmentURL := none, createdAt := none,
                updatedAt := none } now).title = "" ∧
    (m.update { id := none, title := none, body := some "",
                attachmentURL := none, createdAt := none,
                updatedAt := none } now).body = "" ∧
    ∀ freshId data, data.title = some "" →
      ∃ e, Message.create freshId now data = .error e := by
  refine ⟨rfl, rfl, fun freshId data h =>
    ⟨"Both 'title' and 'body' are required.", ?_⟩⟩
  unfold Message.create
  rw [if_pos (by rw [h]; rfl)]

/-- Witness for C7: empty title accepted by update, rejected by create. -/
theorem update_no_revalidation_witness :
    (msgA.update { id := none, title := some "", body := none,
                   attachmentURL := none, createdAt := none,
                   updatedAt := none } 9).title = "" ∧
    ∃ e, Message.create "f1" 9
      ⟨none, some "", some "World", none, none, none⟩ = .error e :=
  ⟨(update_no_revalidation msgA 9).1,
   (update_no_revalidation msgA 9).2.2 "f1"
     ⟨none, some "", some "World", none, none, none⟩ rfl⟩

/-- C9: a create input whose `attachmentURL` is the empty string yields a
record with `attachmentURL` absent — indistinguishable from not supplying
one. -/
theorem create_empty_attachment (freshId : String) (now : Int)
    (data : CreateInput) (h : data.attachmentURL = some (some "")) :
    Message.create freshId now data =
      Message.create freshId now { data with attachmentURL := none } ∧
    ∀ m, Message.create freshId now data = .ok m → m.attachmentURL = none := by
  constructor
  · by_cases hv : strFalsy data.title || strFalsy data.body
    · simp [Message.create, hv]
    · simp [Message.create, hv, h, strNullFalsy]
  · intro m hm
    unfold Message.create at hm
    split at hm
    · exact absurd hm (by simp)
    · rw [Except.ok.injEq] at hm
      subst hm
      simp [h, strNullFalsy]

/-- Witness for C9 at a concrete input carrying an empty-string
attachment. -/
theorem create_empty_attachment_witness :
    Message.create "id-a" 5
        ⟨none, some "Hello", some "World", some (some ""), none, none⟩ =
      Message.create "id-a" 5
        { (⟨none, some "Hello", some "World", some (some ""), none, none⟩ :
            CreateInput) with attachmentURL := none } ∧
    msgA.attachmentURL = none :=
  ⟨(create_empty_attachment "id-a" 5
      ⟨none, some "Hello", some "World", some (some ""), none, none⟩ rfl).1,
   (create_empty_attachment "id-a" 5
      ⟨none, some "Hello", some "World", some (some ""), none, none⟩ rfl).2
     msgA (by with_unfolding_all rfl)⟩

/-- C10: `create` ignores any `id`, `createdAt` or `updatedAt` supplied in
its input: the result only depends on the other fields, its `id` is the
freshly generated one and its `createdAt` is the injected clock value. -/
theorem create_ignores_identity (freshId : String) (now : Int)
    (data : CreateInput) :
    Message.create freshId now data =
      Message.create freshId now
        { data with id := none, createdAt := none, updatedAt := none } ∧
    ∀ m, Message.create freshId now data = .ok m →
      m.id = freshId ∧ m.createdAt = now := by
  constructor
  · rfl
  · intro m hm
    unfold Message.create at hm
    split at hm
    · exact absurd hm (by simp)
    · rw [Except.ok.injEq] at hm
      subst hm
      exact ⟨rfl, rfl⟩

/-- Witness for C10: an input that tries to choose its own identity and
timestamps. -/
theorem create_ignores_identity_witness :
    msgA.id = "id-a" ∧ msgA.createdAt = 5 :=
  (create_ignores_identity "id-a" 5
    ⟨some "chosen-id", some "Hello", some "World", none, some 999,
     some (some 888)⟩).2 msgA (by with_unfolding_all rfl)

/-! ## The clock pipeline (C8) -/

/-- `ratFloor` agrees with the floor function. -/
theorem ratFloor_eq_floor (q : ℚ) : ratFloor q = ⌊q⌋ := by
  rw [Rat.floor_def, ratFloor, Int.fdiv_eq_ediv _ (by positivity)]

/-- Round-to-nearest is within a half of its argument. -/
theorem rne_sub_le (q : ℚ) : |(rne q : ℚ) - q| ≤ 1/2 := by
  have h1 : (⌊q⌋ : ℚ) ≤ q := Int.floor_le q
  have h2 : q < (⌊q⌋ : ℚ) + 1 := Int.lt_floor_add_one q
  rw [rne, ratFloor_eq_floor]
  rcases lt_trichotomy (q - (⌊q⌋ : ℚ)) (1/2) with h | h | h
  · rw [if_pos h, abs_le]
    constructor <;> linarith
  · rw [if_neg (by rw [h]; exact lt_irrefl _), if_neg (by rw [h]; exact lt_irrefl _)]
    split
    · rw [abs_le]; constructor <;> linarith
    · rw [abs_le]; push_cast; constructor <;> linarith
  · rw [if_neg (by linarith), if_pos h, abs_le]
    push_cast
    constructor <;> linarith

/-- Round-to-nearest is exact on integers. -/
theorem rne_intCast (n : ℤ) : rne (n : ℚ) = n := by
  rw [rne, ratFloor_eq_floor, Int.floor_intCast]
  rw [if_pos]
  simp

/-- The fuel-based logarithm agrees with `Nat.log2` when given enough
fuel. -/
theorem log2fuel_eq (fuel n : ℕ) (h : n ≤ fuel) : log2fuel fuel n = Nat.log2 n := by
  induction fuel generalizing n with
  | zero =>
    interval_cases n
    simp [log2fuel, Nat.log2]
  | succ fuel ih =>
    rw [log2fuel]
    by_cases h2 : 2 ≤ n
    · rw [if_pos h2, ih (n / 2) (by omega)]
      conv_rhs => rw [Nat.log2]
      rw [if_pos h2]
    · rw [if_neg h2]
      conv_rhs => rw [Nat.log2]
      rw [if_neg h2]

/-- `natLog2` is `Nat.log2`. -/
theorem natLog2_eq (n : ℕ) : natLog2 n = Nat.log2 n := log2fuel_eq n n le_rfl

/-- `pow2` is the integer power of two. -/
theorem pow2_eq_zpow (e : ℤ) : pow2 e = (2 : ℚ) ^ e := by
  rw [pow2]
  by_cases h : 0 ≤ e
  · rw [if_pos h]
    push_cast
    rw [← zpow_natCast, Int.toNat_of_nonneg h]
  · rw [if_neg h]
    push_cast
    rw [← zpow_natCast, Int.toNat_of_nonneg (by omega), ← zpow_neg, neg_neg]

/-- `qexp` brackets a positive rational between consecutive powers of
two: `2 ^ qexp q ≤ q < 2 ^ (qexp q + 1)`. -/
theorem qexp_spec (q : ℚ) (hq : 0 < q) :
    pow2 (qexp q) ≤ q ∧ q < pow2 (qexp q + 1) := by
  have hnum : 0 < q.num := Rat.num_pos.mpr hq
  have hdpos : 0 < q.den := q.den_pos
  set n : ℕ := q.num.natAbs with hn
  set d : ℕ := q.den with hd
  have hn1 : n ≠ 0 := by
    rw [hn]
    simpa using (by omega : q.num ≠ 0)
  have hd1 : d ≠ 0 := by omega
  have hqnd : q = (n : ℚ) / (d : ℚ) := by
    rw [hn, hd]
    rw [show ((q.num.natAbs : ℕ) : ℚ) = ((q.num : ℤ) : ℚ) by
      rw [Int.cast_natAbs]
      rw [abs_of_nonneg (by exact_mod_cast le_of_lt hnum)]]
    exact (Rat.num_div_den q).symm
  set ln : ℕ := natLog2 n with hln
  set ld : ℕ := natLog2 d with hld
  have h1 : (2:ℚ) ^ (ln : ℤ) ≤ (n : ℚ) := by
    rw [hln, natLog2_eq, zpow_natCast]
    exact_mod_cast Nat.log2_self_le hn1
  have h2 : (n : ℚ) < (2:ℚ) ^ ((ln : ℤ) + 1) := by
    rw [hln, natLog2_eq, show ((Nat.log2 n : ℤ) + 1) = ((Nat.log2 n + 1 : ℕ) : ℤ) by push_cast; ring,
        zpow_natCast]
    exact_mod_cast Nat.lt_log2_self
  have h3 : (2:ℚ) ^ (ld : ℤ) ≤ (d : ℚ) := by
    rw [hld, natLog2_eq, zpow_natCast]
    exact_mod_cast Nat.log2_self_le hd1
  have h4 : (d : ℚ) < (2:ℚ) ^ ((ld : ℤ) + 1) := by
    rw [hld, natLog2_eq, show ((Nat.log2 d : ℤ) + 1) = ((Nat.log2 d + 1 : ℕ) : ℤ) by push_cast; ring,
        zpow_natCast]
    exact_mod_cast Nat.lt_log2_self
  have hdq : (0:ℚ) < (d : ℚ) := by exact_mod_cast hdpos
  have upper : q < (2:ℚ) ^ ((ln : ℤ) - ld + 1) := by
    rw [hqnd, div_lt_iff₀ hdq]
    calc (n:ℚ) < 2 ^ ((ln:ℤ)+1) := h2
      _ = 2 ^ ((ln:ℤ) - ld + 1) * 2 ^ (ld:ℤ) := by
          rw [show (ln:ℤ)+1 = ((ln:ℤ) - ld + 1) + ld by ring, zpow_add₀ two_ne_zero]
      _ ≤ 2 ^ ((ln:ℤ) - ld + 1) * d := by
          exact mul_le_mul_of_nonneg_left h3 (le_of_lt (zpow_pos two_pos _))
  have lower : (2:ℚ) ^ ((ln : ℤ) - ld - 1) < q := by
    rw [hqnd, lt_div_iff₀ hdq]
    calc (2:ℚ) ^ ((ln:ℤ)-ld-1) * d < 2 ^ ((ln:ℤ)-ld-1) * 2 ^ ((ld:ℤ)+1) := by
          exact mul_lt_mul_of_pos_left h4 (zpow_pos two_pos _)
      _ = 2 ^ (ln:ℤ) := by
          rw [← zpow_add₀ two_ne_zero, show (ln:ℤ) - ld - 1 + (ld + 1) = (ln:ℤ) by ring]
      _ ≤ n := h1
  have hqe : qexp q = if q < pow2 ((ln : ℤ) - ld) then (ln:ℤ) - ld - 1 else (ln:ℤ) - ld := by
    rw [qexp, ← hn, ← hd, ← hln, ← hld]
  by_cases hc : q < pow2 ((ln : ℤ) - ld)
  · rw [hqe, if_pos hc]
    constructor
    · rw [pow2_eq_zpow]
      exact le_of_lt lower
    · rw [show (ln:ℤ) - ld - 1 + 1 = (ln:ℤ) - ld by ring]
      exact hc
  · rw [hqe, if_neg hc]
    constructor
    · rw [pow2_eq_zpow] at hc ⊢
      exact le_of_not_lt hc
    · rw [pow2_eq_zpow]
      exact upper

/-- A natural number below `2 ^ 53` is an exact binary64 value. -/
theorem roundDouble_natCast (n : ℕ) (h : n < 2 ^ 53) : roundDouble (n : ℚ) = n := by
  by_cases h0 : (n : ℚ) = 0
  · rw [roundDouble, if_pos h0, h0]
  · have hn0 : 0 < n := by
      rcases Nat.eq_zero_or_pos n with h' | h'
      · exact absurd (by rw [h']; norm_num) h0
      · exact h'
    have hq : (0:ℚ) < n := by exact_mod_cast hn0
    obtain ⟨hlo, hhi⟩ := qexp_spec (n : ℚ) hq
    set e := qexp (n : ℚ) with he
    have he0 : 0 ≤ e := by
      by_contra hneg
      push_neg at hneg
      have hle : pow2 (e + 1) ≤ 1 := by
        rw [pow2_eq_zpow]
        calc (2:ℚ) ^ (e+1) ≤ 2 ^ (0:ℤ) := zpow_le_zpow_right₀ one_le_two (by omega)
          _ = 1 := zpow_zero 2
      have h1n : (1:ℚ) ≤ n := by exact_mod_cast hn0
      linarith
    have he52 : e ≤ 52 := by
      by_contra hgt
      push_neg at hgt
      have h53 : ((2:ℚ)) ^ (53:ℤ) ≤ pow2 e := by
        rw [pow2_eq_zpow]
        exact zpow_le_zpow_right₀ one_le_two (by omega)
      have hnlt : (n : ℚ) < (2:ℚ) ^ (53:ℤ) := by
        rw [show ((53:ℤ)) = ((53:ℕ) : ℤ) from rfl, zpow_natCast]
        exact_mod_cast h
      linarith
    have hscaled : (n : ℚ) * pow2 (52 - e) = ((n * 2 ^ (52 - e).toNat : ℕ) : ℚ) := by
      rw [pow2_eq_zpow]
      push_cast
      rw [← zpow_natCast (2:ℚ), Int.toNat_of_nonneg (by omega)]
    rw [roundDouble, if_neg h0, ← he, hscaled]
    rw [show ((n * 2 ^ (52 - e).toNat : ℕ) : ℚ) = (((n * 2 ^ (52 - e).toNat : ℕ) : ℤ) : ℚ) by push_cast; ring]
    rw [rne_intCast]
    rw [pow2_eq_zpow]
    push_cast
    rw [← zpow_natCast (2:ℚ) (52 - e).toNat, Int.toNat_of_nonneg (by omega),
        mul_assoc, ← zpow_add₀ (two_ne_zero) (52 - e) (e - 52),
        show (52 - e) + (e - 52) = (0:ℤ) by ring, zpow_zero, mul_one]

/-- Rounding a positive rational to binary64 moves it by at most half an
ulp, `2 ^ (qexp q - 53)`. -/
theorem roundDouble_err (q : ℚ) (hq : 0 < q) :
    |roundDouble q - q| ≤ pow2 (qexp q - 53) := by
  rw [roundDouble, if_neg (ne_of_gt hq)]
  set e := qexp q with he
  have hp : (0:ℚ) < pow2 (e - 52) := by
    rw [pow2_eq_zpow]
    exact zpow_pos two_pos _
  have hinv : pow2 (52 - e) * pow2 (e - 52) = 1 := by
    rw [pow2_eq_zpow, pow2_eq_zpow, ← zpow_add₀ two_ne_zero,
        show (52 - e) + (e - 52) = (0:ℤ) by ring, zpow_zero]
  have key := rne_sub_le (q * pow2 (52 - e))
  have hq_eq : q * pow2 (52 - e) * pow2 (e - 52) = q := by
    rw [mul_assoc, hinv, mul_one]
  calc |(rne (q * pow2 (52 - e)) : ℚ) * pow2 (e - 52) - q|
      = |((rne (q * pow2 (52 - e)) : ℚ) - q * pow2 (52 - e)) * pow2 (e - 52)| := by
        rw [sub_mul, hq_eq]
    _ = |(rne (q * pow2 (52 - e)) : ℚ) - q * pow2 (52 - e)| * pow2 (e - 52) := by
        rw [abs_mul, abs_of_pos hp]
    _ ≤ 1/2 * pow2 (e - 52) := mul_le_mul_of_nonneg_right key (le_of_lt hp)
    _ = pow2 (e - 53) := by
        rw [pow2_eq_zpow, pow2_eq_zpow,
            show (1:ℚ)/2 = (2:ℚ) ^ (-1:ℤ) by norm_num,
            ← zpow_add₀ two_ne_zero]
        congr 1
        ring

/-- C8 (amended): the clock pipeline is the exact millisecond truncation
`⌊t / 1000000⌋` for every clock reading `t` below `2 ^ 53` (where the
conversion to a JavaScript number is exact); for larger readings — all
realistic nanosecond timestamps — the binary64 roundings can shift the
result, see the counterexample. -/
theorem getCurrentDate_exact (t : ℕ) (h : t < 2 ^ 53) :
    getCurrentDate t = ((t / 1000000 : ℕ) : ℤ) := by
  by_cases ht0 : t = 0
  · subst ht0
    with_unfolding_all decide
  rw [getCurrentDate, roundDouble_natCast t h]
  set m : ℕ := t / 1000000 with hm
  set r : ℕ := t % 1000000 with hr
  have htmr : t = 1000000 * m + r := by
    rw [hm, hr]
    omega
  have hrlt : r < 1000000 := by
    rw [hr]
    omega
  by_cases hr0 : r = 0
  · have hqm : (t : ℚ) / 1000000 = (m : ℚ) := by
      have ht' : (t:ℚ) = 1000000 * (m:ℚ) := by exact_mod_cast (by omega : t = 1000000 * m)
      rw [ht']
      field_simp
    rw [hqm, roundDouble_natCast m (by omega : m < 2 ^ 53), ratFloor_eq_floor]
    exact_mod_cast Int.floor_natCast m
  · have htpos : 0 < t := by omega
    have hq : (0:ℚ) < (t : ℚ) / 1000000 := by positivity
    set q : ℚ := (t : ℚ) / 1000000 with hqdef
    obtain ⟨hlo, hhi⟩ := qexp_spec q hq
    set e := qexp q with he
    have he33 : e ≤ 33 := by
      by_contra hgt
      push_neg at hgt
      have h234 : (2:ℚ) ^ (34:ℤ) ≤ pow2 e := by
        rw [pow2_eq_zpow]
        exact zpow_le_zpow_right₀ one_le_two (by omega)
      have hqlt : q < (2:ℚ) ^ (34:ℤ) := by
        rw [hqdef, div_lt_iff₀ (by norm_num : (0:ℚ) < 1000000)]
        calc (t : ℚ) < ((2 ^ 53 : ℕ) : ℚ) := by exact_mod_cast h
          _ ≤ (2:ℚ) ^ (34:ℤ) * 1000000 := by
              rw [show ((34:ℤ)) = ((34:ℕ) : ℤ) from rfl, zpow_natCast]
              norm_num
      linarith
    have herr := roundDouble_err q hq
    have herr20 : |roundDouble q - q| ≤ 1 / 1048576 := by
      refine le_trans herr ?_
      rw [pow2_eq_zpow,
          show (1:ℚ)/1048576 = (2:ℚ) ^ (-20:ℤ) by
            rw [show ((-20:ℤ)) = -((20:ℕ) : ℤ) from rfl, zpow_neg, zpow_natCast]
            norm_num]
      exact zpow_le_zpow_right₀ one_le_two (by omega)
    have hq_eq : q = (m : ℚ) + (r : ℚ) / 1000000 := by
      rw [hqdef]
      have ht' : (t:ℚ) = 1000000 * (m:ℚ) + (r:ℚ) := by exact_mod_cast htmr
      rw [ht']
      field_simp
      ring
    have hrlo : (1:ℚ) ≤ (r : ℚ) := by exact_mod_cast (by omega : 1 ≤ r)
    have hrhi : (r : ℚ) ≤ 999999 := by exact_mod_cast (by omega : r ≤ 999999)
    rw [ratFloor_eq_floor]
    have hfloor : ⌊roundDouble q⌋ = (m : ℤ) := by
      rw [Int.floor_eq_iff]
      have habs := abs_le.mp herr20
      constructor
      · push_cast
        linarith [habs.1]
      · push_cast
        linarith [habs.2]
    rw [hfloor]

set_option maxRecDepth 8000 in
/-- C8 (counterexample): at the nanosecond clock reading
`t = 1700000000000999936` (November 2023), the value stored by
`getCurrentDate` is `1700000000001`, while the exact millisecond
truncation `⌊t / 1000000⌋` is `1700000000000`: the conversion of the
bigint to a binary64 number and the binary64 division round the result
across a millisecond boundary. -/
theorem getCurrentDate_not_exact :
    getCurrentDate 1700000000000999936 ≠
      ((1700000000000999936 / 1000000 : ℕ) : ℤ) ∧
    getCurrentDate 1700000000000999936 = 1700000000001 ∧
    ((1700000000000999936 / 1000000 : ℕ) : ℤ) = 1700000000000 := by
  refine ⟨?_, ?_, ?_⟩
  · with_unfolding_all decide
  · with_unfolding_all decide
  · with_unfolding_all decide

/-- Witness for the amended C8 at a concrete small clock reading. -/
theorem getCurrentDate_exact_witness :
    (3000005 : ℕ) < 2 ^ 53 ∧
    getCurrentDate 3000005 = ((3000005 / 1000000 : ℕ) : ℤ) :=
  ⟨by norm_num, getCurrentDate_exact 3000005 (by norm_num)⟩

end MessageBoard
